import Mathlib

/-!
Shallow embedding of the sharded in-memory cache (package `cache`,
file containing `lockedMap`, `keyToHash`, `Set`, `Get`, `Add`, `Delete`,
`DeleteExpired`, `ItemCount`, `Flush`, `newCache`).

Modelling conventions:
* Time: the Go code reads a monotonic nanosecond clock via `nanoTime()`;
  every operation that samples the clock here takes an explicit `now : Int`
  argument (Go `int64` nanoseconds).  `DeleteExpired` samples the clock once
  and that single value is the one `now` argument applied to all shards,
  mirroring the single `now := nanoTime()` at the top of the Go function.
* Values: the Go cache stores `interface{}`; the model is parametric in a
  value type `α`.
* Keys: `keyToHash` switches on the dynamic type of the key.  The supported
  categories become constructors of `GoKey`; everything else (the `default`
  branch, which panics) is the constructor `kUnsupported`.  `string` and
  `[]byte` keys are represented by their byte sequences, since both are
  hashed over their raw bytes.
* `memhash` is a process-seeded runtime hash; the model is parametric in a
  function `mh : List Nat → Nat` standing for `memHash` on a byte sequence.
* Panics: an operation that would panic (unsupported key category) returns
  `none`; normal completion is `some`.
* The per-shard Go map `map[uint64]item` is modelled as an association list
  `List (Nat × item α)` with `mapGet` / `mapSet` / `mapErase` giving Go map
  semantics; the shard slice `items []*lockedMap` is a `List` of shards.
* Locks order the concurrent interleavings; the sequential semantics of each
  operation, which is what the claims are about, is the pure function below.
-/

namespace GoCache

/-- The supported key categories of `keyToHash`, plus one constructor for
the `default` branch (any unsupported dynamic type). Text and byte-slice
keys are carried as their byte sequences. -/
inductive GoKey where
  | ku64 (v : Nat)
  | kstr (bytes : List Nat)
  | kbytes (bytes : List Nat)
  | kbyte (b : Nat)
  | kint (v : Int)
  | kint32 (v : Int)
  | ku32 (v : Nat)
  | kint64 (v : Int)
  | kUnsupported
deriving DecidableEq

/-- Go `item`: the stored object and its absolute expiration in
nanoseconds (0 = never expires). -/
structure item (α : Type) where
  Object : α
  Expiration : Int
deriving DecidableEq

/-- Go `numShards uint64 = 256`. -/
def numShards : Nat := 256

/-- Go `NoExpiration time.Duration = -1` (nanoseconds). -/
def NoExpiration : Int := -1

/-- Go `DefaultExpiration time.Duration = 0`. -/
def DefaultExpiration : Int := 0

/-- Go `func (item item) Expired() bool`, with the `nanoTime()` sample made
explicit: `Expiration == 0 → false`, otherwise `nanoTime() > Expiration`. -/
def item.Expired (now : Int) (it : item α) : Bool :=
  if it.Expiration = 0 then false else decide (it.Expiration < now)

/-- Go `func keyToHash(key interface{}) uint64`.  `mh` stands for the
process-seeded `memHash` over a byte sequence (`memHashString` hashes the
string's bytes with the same runtime hash).  Integer cases are Go
conversions `uint64(k)`: value reinterpreted modulo 2^64.  The `default`
branch panics, modelled as `none`. -/
def keyToHash (mh : List Nat → Nat) : GoKey → Option Nat
  | .ku64 v => some v
  | .kstr bytes => some (mh bytes)
  | .kbytes bytes => some (mh bytes)
  | .kbyte b => some (mh [b])
  | .kint v => some ((v % (2 ^ 64 : Int)).toNat)
  | .kint32 v => some ((v % (2 ^ 64 : Int)).toNat)
  | .ku32 v => some v
  | .kint64 v => some ((v % (2 ^ 64 : Int)).toNat)
  | .kUnsupported => none

/-- Go map lookup `data[key]` on one shard's map. -/
def mapGet : List (Nat × item α) → Nat → Option (item α)
  | [], _ => none
  | (k', v') :: rest, k => if k' = k then some v' else mapGet rest k

/-- Go map assignment `data[key] = v`: overwrite in place if the key is
present, otherwise add the binding. -/
def mapSet : List (Nat × item α) → Nat → item α → List (Nat × item α)
  | [], k, v => [(k, v)]
  | (k', v') :: rest, k, v =>
      if k' = k then (k, v) :: rest else (k', v') :: mapSet rest k v

/-- Go `delete(data, key)`: remove any binding for the key. -/
def mapErase (m : List (Nat × item α)) (k : Nat) : List (Nat × item α) :=
  m.filter (fun p => p.1 != k)

/-- Go `cache`: the default TTL and the slice of 256 shard maps (the
janitor handle plays no role in the sequential semantics). -/
structure cache (α : Type) where
  defaultExpiration : Int
  items : List (List (Nat × item α))
deriving DecidableEq

/-- `c.items[i].data`: the map of shard `i`. -/
def shard (c : cache α) (i : Nat) : List (Nat × item α) :=
  c.items.getD i []

/-- Go `newCache(de)`: `de == 0` becomes `-1`, and 256 empty shards. -/
def newCache (de : Int) : cache α :=
  { defaultExpiration := if de = 0 then -1 else de
    items := List.replicate numShards [] }

/-- Go `func (c *cache) Set(k, x interface{}, d time.Duration)`:
resolve the `DefaultExpiration` sentinel, compute the absolute expiration
(`0` when `d ≤ 0` after resolution), hash, and overwrite in the shard at
`key % numShards`.  `none` models the `keyToHash` panic. -/
def Set (mh : List Nat → Nat) (now : Int) (k : GoKey) (x : α) (d : Int)
    (c : cache α) : Option (cache α) :=
  let d := if d = DefaultExpiration then c.defaultExpiration else d
  let e : Int := if 0 < d then now + d else 0
  match keyToHash mh k with
  | none => none
  | some key =>
    let idx := key % numShards
    some { c with items := c.items.set idx (mapSet (shard c idx) key ⟨x, e⟩) }

/-- Go unexported `func (c *cache) set(k, x interface{}, d time.Duration)`:
same mutation as `Set` without the locking. -/
def set (mh : List Nat → Nat) (now : Int) (k : GoKey) (x : α) (d : Int)
    (c : cache α) : Option (cache α) :=
  let d := if d = DefaultExpiration then c.defaultExpiration else d
  let e : Int := if 0 < d then now + d else 0
  match keyToHash mh k with
  | none => none
  | some key =>
    let idx := key % numShards
    some { c with items := c.items.set idx (mapSet (shard c idx) key ⟨x, e⟩) }

/-- Go `SetDefault(k, x)` = `Set(k, x, c.defaultExpiration)`. -/
def SetDefault (mh : List Nat → Nat) (now : Int) (k : GoKey) (x : α)
    (c : cache α) : Option (cache α) :=
  Set mh now k x c.defaultExpiration c

/-- Go `func (c *cache) Get(k interface{}) (value interface{}, ok bool)`:
look up in the shard at `key % numShards`; a present entry with
`Expiration > 0 && nanoTime() > Expiration` is treated as not found.  The
returned pair is (result, cache state on return): `Get` performs no map
mutation, which the second component makes explicit. -/
def Get (mh : List Nat → Nat) (now : Int) (k : GoKey) (c : cache α) :
    Option (Option α × cache α) :=
  match keyToHash mh k with
  | none => none
  | some key =>
    let idx := key % numShards
    match mapGet (shard c idx) key with
    | none => some (none, c)
    | some it =>
      if 0 < it.Expiration then
        if it.Expiration < now then some (none, c)
        else some (some it.Object, c)
      else some (some it.Object, c)

/-- Go unexported `func (c *cache) get(k interface{})`: the lock-free
lookup used by `Add`; result `some none` is Go's `(nil, false)`. -/
def get (mh : List Nat → Nat) (now : Int) (k : GoKey) (c : cache α) :
    Option (Option α) :=
  match keyToHash mh k with
  | none => none
  | some key =>
    let idx := key % numShards
    match mapGet (shard c idx) key with
    | none => some none
    | some it =>
      if 0 < it.Expiration then
        if it.Expiration < now then some none
        else some (some it.Object)
      else some (some it.Object)

/-- Go `func (c *cache) Add(k, x interface{}, d time.Duration) error`:
under the shard's lock, `get`; if found return the "already exists" error
(first component `true`) leaving the state unchanged, otherwise `set`.
`none` models the `keyToHash` panic. -/
def Add (mh : List Nat → Nat) (now : Int) (k : GoKey) (x : α) (d : Int)
    (c : cache α) : Option (Bool × cache α) :=
  match keyToHash mh k with
  | none => none
  | some _ =>
    match get mh now k c with
    | none => none
    | some r =>
      if r.isSome then some (true, c)
      else
        match set mh now k x d c with
        | none => none
        | some c' => some (false, c')

/-- Go `func (c *cache) Delete(k interface{})`: remove any binding for the
hash from the shard at `key % numShards`. -/
def Delete (mh : List Nat → Nat) (k : GoKey) (c : cache α) :
    Option (cache α) :=
  match keyToHash mh k with
  | none => none
  | some key =>
    let idx := key % numShards
    some { c with items := c.items.set idx (mapErase (shard c idx) key) }

/-- The inlined expiry test of `DeleteExpired`:
`Expiration > 0 && now > Expiration`. -/
def expiredAt (now : Int) (p : Nat × item α) : Bool :=
  decide (0 < p.2.Expiration) && decide (p.2.Expiration < now)

/-- Go `func (c *cache) DeleteExpired()`: one clock sample `now`, then for
every shard delete every entry with `Expiration > 0 && now > Expiration`. -/
def DeleteExpired (now : Int) (c : cache α) : cache α :=
  { c with items := c.items.map (fun m => m.filter (fun p => !expiredAt now p)) }

/-- Go `func (c *cache) ItemCount() int`: sum of `len(data)` over all
shards. -/
def ItemCount (c : cache α) : Nat :=
  (c.items.map List.length).sum

/-- Go `func (c *cache) Flush()`: replace every shard's map by a fresh
empty one. -/
def Flush (c : cache α) : cache α :=
  { c with items := c.items.map (fun _ => ([] : List (Nat × item α))) }

/-- The number of entries a sweep at time `now` would remove. -/
def expiredCount (now : Int) (c : cache α) : Nat :=
  ((c.items.map (fun m => m.filter (expiredAt now))).map List.length).sum

/-- Shard-placement invariant: exactly 256 shards, and every entry of
shard `i` has a hash congruent to `i` modulo `numShards`. -/
def WF (c : cache α) : Prop :=
  c.items.length = numShards ∧
    ∀ i < numShards, ∀ p ∈ shard c i, p.1 % numShards = i

instance (c : cache α) : Decidable (WF c) := by
  unfold WF shard
  exact inferInstance

/-! ### Lemmas about the Go map model -/

theorem mapGet_mapSet_self (m : List (Nat × item α)) (k : Nat) (v : item α) :
    mapGet (mapSet m k v) k = some v := by
  induction m with
  | nil => simp [mapSet, mapGet]
  | cons p rest ih =>
    obtain ⟨k', v'⟩ := p
    by_cases h : k' = k
    · simp [mapSet, mapGet, h]
    · simp [mapSet, mapGet, h, ih]

theorem mem_mapSet (m : List (Nat × item α)) (k : Nat) (v : item α)
    (p : Nat × item α) (hp : p ∈ mapSet m k v) : p = (k, v) ∨ p ∈ m := by
  induction m with
  | nil => simpa [mapSet] using hp
  | cons q rest ih =>
    obtain ⟨k', v'⟩ := q
    by_cases h : k' = k
    · rcases (by simpa [mapSet, h] using hp : p = (k, v) ∨ p ∈ rest) with h1 | h1
      · exact Or.inl h1
      · exact Or.inr (List.mem_cons_of_mem _ h1)
    · rcases (by simpa [mapSet, h] using hp :
          p = (k', v') ∨ p ∈ mapSet rest k v) with h1 | h1
      · exact Or.inr (by simp [h1])
      · rcases ih h1 with h2 | h2
        · exact Or.inl h2
        · exact Or.inr (List.mem_cons_of_mem _ h2)

theorem mem_mapErase (m : List (Nat × item α)) (k : Nat)
    (p : Nat × item α) (hp : p ∈ mapErase m k) : p ∈ m :=
  List.mem_of_mem_filter hp

/-! ### Lemmas about the shard slice -/

theorem getD_set_self (l : List β) (i : Nat) (a d : β) (h : i < l.length) :
    (l.set i a).getD i d = a := by
  rw [List.getD_eq_getElem _ _ (by simpa using h)]
  simp [List.getElem_set]

theorem getD_set_ne (l : List β) (i j : Nat) (a d : β) (h : j ≠ i) :
    (l.set i a).getD j d = l.getD j d := by
  rcases lt_or_ge j l.length with hj | hj
  · rw [List.getD_eq_getElem _ _ (by simpa using hj),
      List.getD_eq_getElem _ _ hj]
    simp [List.getElem_set, h.symm]
  · rw [List.getD_eq_default _ _ (by simpa using hj),
      List.getD_eq_default _ _ hj]

theorem getD_replicate_nil (n i : Nat) :
    (List.replicate n ([] : List β)).getD i [] = [] := by
  rcases lt_or_ge i n with h | h
  · rw [List.getD_eq_getElem _ _ (by simpa using h)]
    simp
  · exact List.getD_eq_default _ _ (by simpa using h)

theorem getD_map_nil (f : List β → List γ) (hf : f [] = [])
    (l : List (List β)) (i : Nat) : (l.map f).getD i [] = f (l.getD i []) := by
  have := List.getD_map (l := l) (d := ([] : List β)) (n := i) f
  rwa [hf] at this

theorem length_filter_partition (p : β → Bool) (l : List β) :
    (l.filter (fun a => !p a)).length + (l.filter p).length = l.length := by
  induction l with
  | nil => rfl
  | cons x xs ih => by_cases h : p x <;> simp [List.filter_cons, h] <;> omega

theorem sum_length_sweep (now : Int) (ls : List (List (Nat × item α))) :
    ((ls.map (fun m => m.filter (fun p => !expiredAt now p))).map
        List.length).sum
      + ((ls.map (fun m => m.filter (expiredAt now))).map List.length).sum
      = (ls.map List.length).sum := by
  induction ls with
  | nil => rfl
  | cons m rest ih =>
    simp only [List.map_cons, List.sum_cons]
    have hm := length_filter_partition (expiredAt now) m
    omega

theorem mapGet_mem (m : List (Nat × item α)) (k : Nat) (v : item α)
    (h : mapGet m k = some v) : (k, v) ∈ m := by
  induction m with
  | nil => simp [mapGet] at h
  | cons p rest ih =>
    obtain ⟨k', v'⟩ := p
    by_cases hk : k' = k
    · subst hk
      simp [mapGet] at h
      subst h
      exact List.mem_cons_self _ _
    · simp only [mapGet, if_neg hk] at h
      exact List.mem_cons_of_mem _ (ih h)

theorem shard_set_self (c : cache α) (i : Nat) (m : List (Nat × item α))
    (h : i < c.items.length) :
    shard { c with items := c.items.set i m } i = m :=
  getD_set_self _ _ _ _ h

theorem shard_set_ne (c : cache α) (i j : Nat) (m : List (Nat × item α))
    (h : j ≠ i) :
    shard { c with items := c.items.set i m } j = shard c j :=
  getD_set_ne _ _ _ _ _ h

theorem shard_DeleteExpired (now : Int) (c : cache α) (i : Nat) :
    shard (DeleteExpired now c) i =
      (shard c i).filter (fun p => !expiredAt now p) :=
  getD_map_nil _ rfl _ _

theorem shard_Flush (c : cache α) (i : Nat) : shard (Flush c) i = [] :=
  getD_map_nil _ rfl _ _

theorem shard_eq_nil_of_le (c : cache α) (i : Nat)
    (h : c.items.length ≤ i) : shard c i = [] :=
  List.getD_eq_default _ _ h

theorem shard_newCache (de : Int) (i : Nat) :
    shard (newCache de : cache α) i = [] :=
  getD_replicate_nil _ _

theorem WF_newCache (de : Int) : WF (newCache de : cache α) := by
  refine ⟨by simp [newCache], ?_⟩
  intro i _ p hp
  rw [shard_newCache] at hp
  exact absurd hp (List.not_mem_nil _)

theorem WF_update (c : cache α) (hwf : WF c) (h : Nat)
    (m : List (Nat × item α))
    (hm : ∀ p ∈ m, p ∈ shard c (h % numShards) ∨ p.1 = h) :
    WF { c with items := c.items.set (h % numShards) m } := by
  obtain ⟨hlen, hins⟩ := hwf
  refine ⟨by simpa using hlen, ?_⟩
  intro i hi p hp
  by_cases hij : i = h % numShards
  · subst hij
    rw [shard_set_self _ _ _ (by rw [hlen]; exact Nat.mod_lt _ (by decide))]
      at hp
    rcases hm p hp with h1 | h1
    · exact hins _ hi _ h1
    · rw [h1]
  · rw [shard_set_ne _ _ _ _ hij] at hp
    exact hins _ hi _ hp

theorem WF_Set (mh : List Nat → Nat) (now : Int) (k : GoKey) (x : α)
    (d : Int) (c c' : cache α) (hwf : WF c)
    (hset : Set mh now k x d c = some c') : WF c' := by
  rcases hkk : keyToHash mh k with _ | h
  · rw [Set, hkk] at hset
    exact Option.noConfusion hset
  · rw [Set, hkk] at hset
    obtain rfl := Option.some.inj hset
    exact WF_update c hwf h _ (fun p hp =>
      (mem_mapSet _ _ _ p hp).elim (fun h1 => Or.inr (by rw [h1]))
        (fun h1 => Or.inl h1))

theorem WF_set_lower (mh : List Nat → Nat) (now : Int) (k : GoKey) (x : α)
    (d : Int) (c c' : cache α) (hwf : WF c)
    (hset : set mh now k x d c = some c') : WF c' := by
  rcases hkk : keyToHash mh k with _ | h
  · rw [set, hkk] at hset
    exact Option.noConfusion hset
  · rw [set, hkk] at hset
    obtain rfl := Option.some.inj hset
    exact WF_update c hwf h _ (fun p hp =>
      (mem_mapSet _ _ _ p hp).elim (fun h1 => Or.inr (by rw [h1]))
        (fun h1 => Or.inl h1))

theorem WF_Delete (mh : List Nat → Nat) (k : GoKey) (c c' : cache α)
    (hwf : WF c) (hdel : Delete mh k c = some c') : WF c' := by
  rcases hkk : keyToHash mh k with _ | h
  · rw [Delete, hkk] at hdel
    exact Option.noConfusion hdel
  · rw [Delete, hkk] at hdel
    obtain rfl := Option.some.inj hdel
    exact WF_update c hwf h _ (fun p hp =>
      Or.inl (mem_mapErase _ _ p hp))

theorem WF_Add (mh : List Nat → Nat) (now : Int) (k : GoKey) (x : α)
    (d : Int) (b : Bool) (c c' : cache α) (hwf : WF c)
    (hadd : Add mh now k x d c = some (b, c')) : WF c' := by
  rcases hkk : keyToHash mh k with _ | h
  · rw [Add, hkk] at hadd
    exact Option.noConfusion hadd
  · rcases hg : get mh now k c with _ | r
    · simp only [Add, hkk, hg] at hadd
      exact Option.noConfusion hadd
    · by_cases hr : r.isSome
      · simp only [Add, hkk, hg, hr, if_true, Option.some.injEq,
          Prod.mk.injEq] at hadd
        obtain ⟨-, rfl⟩ := hadd
        exact hwf
      · rcases hs : set mh now k x d c with _ | c''
        · simp only [Add, hkk, hg, hs, if_neg hr] at hadd
          exact Option.noConfusion hadd
        · simp only [Add, hkk, hg, hs, if_neg hr, Option.some.injEq,
            Prod.mk.injEq] at hadd
          obtain ⟨-, rfl⟩ := hadd
          exact WF_set_lower mh now k x d c _ hwf hs

theorem WF_DeleteExpired (now : Int) (c : cache α) (hwf : WF c) :
    WF (DeleteExpired now c) := by
  obtain ⟨hlen, hins⟩ := hwf
  refine ⟨by simpa [DeleteExpired] using hlen, ?_⟩
  intro i hi p hp
  rw [shard_DeleteExpired] at hp
  exact hins _ hi _ (List.mem_of_mem_filter hp)

theorem WF_Flush (c : cache α) (hwf : WF c) : WF (Flush c) := by
  refine ⟨by simpa [Flush] using hwf.1, ?_⟩
  intro i _ p hp
  rw [shard_Flush] at hp
  exact absurd hp (List.not_mem_nil _)

/-! ### Claim theorems -/

/-- Claim C1: for every supported key `k` (hash `some h`), value `x`, and
ttl `d` that is either the `NoExpiration` sentinel or a positive duration
not yet elapsed at read time (`nowG ≤ nowS + d`), `Set` at time `nowS`
followed by `Get` at time `nowG` on a well-formed 256-shard cache returns
the value with found = true. -/
theorem set_then_get_returns_value (mh : List Nat → Nat) (nowS nowG : Int)
    (k : GoKey) (h : Nat) (x : α) (d : Int) (c : cache α)
    (hk : keyToHash mh k = some h)
    (hlen : c.items.length = numShards)
    (hd : d = NoExpiration ∨ (0 < d ∧ nowG ≤ nowS + d)) :
    ∃ c', Set mh nowS k x d c = some c' ∧
      Get mh nowG k c' = some (some x, c') := by
  have hidx : h % numShards < c.items.length := by
    rw [hlen]
    exact Nat.mod_lt _ (by decide)
  have hd0 : ¬ d = DefaultExpiration := by
    rcases hd with h1 | h1
    · subst h1
      decide
    · intro hc
      rw [hc] at h1
      exact absurd h1.1 (by decide)
  refine ⟨{ c with items := c.items.set (h % numShards) (mapSet (shard c (h % numShards)) h ⟨x, if 0 < d then nowS + d else 0⟩) }, ?_, ?_⟩
  · simp only [Set, hk, if_neg hd0]
  · simp only [Get, hk, shard_set_self _ _ _ hidx, mapGet_mapSet_self]
    rcases hd with h1 | h1
    · subst h1
      norm_num [NoExpiration]
    · rw [if_pos h1.1]
      have h2 : ¬ (nowS + d < nowG) := by omega
      simp [h2]

/-- Claim C5: a `Get` of a key whose stored entry has a set (`> 0`)
expiration that is strictly in the past returns not-found, and the cache
state on return is exactly the state before the call: the expired entry
(hypothesis `hit`) and every other entry stay physically in place. -/
theorem get_expired_not_found_and_frame (mh : List Nat → Nat) (now : Int)
    (k : GoKey) (h : Nat) (it : item α) (c : cache α)
    (hk : keyToHash mh k = some h)
    (hit : mapGet (shard c (h % numShards)) h = some it)
    (hpos : 0 < it.Expiration) (hexp : it.Expiration < now) :
    Get mh now k c = some (none, c) ∧
      (h, it) ∈ shard c (h % numShards) := by
  constructor
  · simp only [Get, hk, hit, if_pos hpos, if_pos hexp]
  · exact mapGet_mem _ _ _ hit

/-- Claim C10: expiration is strict at the boundary.  For an entry with a
set expiration `E > 0`: at any observed time `now ≤ E` (in particular
`now = E`) the entry is live — `Get` returns the value, a sweep keeps the
entry, and `Expired` is false; for `now > E` the entry is expired —
`Get` returns not-found, a sweep removes it, and `Expired` is true. -/
theorem expiration_boundary_is_strict (mh : List Nat → Nat) (k : GoKey)
    (h : Nat) (it : item α) (c : cache α)
    (hk : keyToHash mh k = some h)
    (hit : mapGet (shard c (h % numShards)) h = some it)
    (hpos : 0 < it.Expiration) :
    (∀ now : Int, now ≤ it.Expiration →
      Get mh now k c = some (some it.Object, c) ∧
      (h, it) ∈ shard (DeleteExpired now c) (h % numShards) ∧
      it.Expired now = false) ∧
    (∀ now : Int, it.Expiration < now →
      Get mh now k c = some (none, c) ∧
      (h, it) ∉ shard (DeleteExpired now c) (h % numShards) ∧
      it.Expired now = true) := by
  constructor
  · intro now hnow
    have hlt : ¬ it.Expiration < now := by omega
    refine ⟨?_, ?_, ?_⟩
    · simp only [Get, hk, hit, if_pos hpos, if_neg hlt]
    · rw [shard_DeleteExpired]
      refine List.mem_filter.mpr ⟨mapGet_mem _ _ _ hit, ?_⟩
      simp [expiredAt, hlt]
    · simp [item.Expired, hlt]
  · intro now hnow
    refine ⟨?_, ?_, ?_⟩
    · simp only [Get, hk, hit, if_pos hpos, if_pos hnow]
    · rw [shard_DeleteExpired]
      intro hmem
      have := (List.mem_filter.mp hmem).2
      simp [expiredAt, hpos, hnow] at this
    · have h0 : ¬ it.Expiration = 0 := by omega
      simp [item.Expired, h0, hnow]

/-- Claim C4: the hasher succeeds exactly on the supported key categories,
and every key-hashing operation applied to a key of an unsupported
category fails fast (the modelled panic `none`) instead of coercing the
key or completing normally. -/
theorem unsupported_key_fails_fast (mh : List Nat → Nat) :
    (∀ k : GoKey, (keyToHash mh k).isSome ↔ k ≠ GoKey.kUnsupported) ∧
    (∀ (now : Int) (x : α) (d : Int) (c : cache α),
      Set mh now GoKey.kUnsupported x d c = none ∧
      SetDefault mh now GoKey.kUnsupported x c = none ∧
      Get mh now GoKey.kUnsupported c = none ∧
      get mh now GoKey.kUnsupported c = none ∧
      Add mh now GoKey.kUnsupported x d c = none ∧
      Delete mh GoKey.kUnsupported c = none) := by
  constructor
  · intro k
    cases k <;> simp [keyToHash]
  · intro now x d c
    refine ⟨?_, ?_, ?_, ?_, ?_, ?_⟩ <;>
      simp [Set, SetDefault, Get, get, Add, Delete, keyToHash]

/-- Claim C3 as stated is false on the code: it claims the hash of every
supported integer key other than `uint64` — including `int32` and `byte`
keys — is the key's value *zero-extended* to 64 bits.  For the `int32`
key `-1`, `uint64(k)` sign-extends: the code yields `2^64 - 1`, whereas
the zero-extension of the 32-bit value would be `2^32 - 1`; and a `byte`
key `5` is sent through `memHash`, so (for a hash function returning 0 on
every input) the hash is `0`, not the zero-extended value `5`. -/
theorem keyToHash_not_zero_extension_counterexample :
    keyToHash (fun _ => 0) (GoKey.kint32 (-1)) = some (2 ^ 64 - 1) ∧
    (2 ^ 64 - 1 : Nat) ≠ 2 ^ 32 - 1 ∧
    keyToHash (fun _ => 0) (GoKey.kbyte 5) = some 0 ∧
    (0 : Nat) ≠ 5 := by
  refine ⟨?_, by decide, rfl, by decide⟩
  decide

/-- Claim C3 (amended): `uint64` keys hash to themselves (identity) and
`uint32` keys to their (zero-extended) value; `int`, `int32` and `int64`
keys hash to their value reinterpreted in two's complement modulo `2^64`,
which coincides with zero-extension exactly for nonnegative values; a
`byte` key `b` hashes to `memHash` of the one-byte sequence `[b]`, not to
its numeric value. -/
theorem keyToHash_integer_cases (mh : List Nat → Nat) :
    (∀ v : Nat, keyToHash mh (GoKey.ku64 v) = some v) ∧
    (∀ v : Nat, keyToHash mh (GoKey.ku32 v) = some v) ∧
    (∀ v : Int, keyToHash mh (GoKey.kint v) = some ((v % (2 ^ 64 : Int)).toNat)) ∧
    (∀ v : Int, keyToHash mh (GoKey.kint32 v) = some ((v % (2 ^ 64 : Int)).toNat)) ∧
    (∀ v : Int, keyToHash mh (GoKey.kint64 v) = some ((v % (2 ^ 64 : Int)).toNat)) ∧
    (∀ v : Int, 0 ≤ v → v < 2 ^ 64 → ((v % (2 ^ 64 : Int)).toNat : Int) = v) ∧
    (∀ v : Int, -(2 ^ 63) ≤ v → v < 0 → ((v % (2 ^ 64 : Int)).toNat : Int) = 2 ^ 64 + v) ∧
    (∀ b : Nat, keyToHash mh (GoKey.kbyte b) = some (mh [b])) := by
  refine ⟨fun v => rfl, fun v => rfl, fun v => rfl, fun v => rfl, fun v => rfl,
    ?_, ?_, fun b => rfl⟩
  · intro v h0 hlt
    rw [Int.emod_eq_of_lt h0 hlt]
    exact Int.toNat_of_nonneg h0
  · intro v hle hneg
    have he : v % (2 ^ 64 : Int) = 2 ^ 64 + v := by
      have : v + 2 ^ 64 * 1 = 2 ^ 64 + v := by ring
      rw [show v % (2 ^ 64 : Int) = (v + 2 ^ 64 * 1) % 2 ^ 64 by
        rw [Int.add_mul_emod_self_left]]
      rw [this]
      exact Int.emod_eq_of_lt (by omega) (by omega)
    rw [he]
    exact Int.toNat_of_nonneg (by omega)

/-- Claim C2: a sweep at the single sampled time `now` removes, in every
shard, exactly the entries whose expiration is set (`> 0`) and strictly
earlier than `now`; every other entry remains; and `ItemCount` decreases
by exactly the number of expired entries removed. -/
theorem delete_expired_removes_exactly_expired (now : Int) (c : cache α) :
    (∀ (i h : Nat) (it : item α),
      (h, it) ∈ shard (DeleteExpired now c) i ↔
        ((h, it) ∈ shard c i ∧ ¬(0 < it.Expiration ∧ it.Expiration < now))) ∧
    ItemCount (DeleteExpired now c) + expiredCount now c = ItemCount c := by
  constructor
  · intro i h it
    rw [shard_DeleteExpired]
    simp [List.mem_filter, expiredAt]
    intro _
    omega
  · simpa only [ItemCount, DeleteExpired, expiredCount] using
      sum_length_sweep now c.items

/-- Claim C7: after `Flush`, `ItemCount` is 0 and `Get` of every
supported key — whatever was set before, with or without expiration —
returns not-found. -/
theorem flush_empties_cache (c : cache α) :
    ItemCount (Flush c) = 0 ∧
    ∀ (mh : List Nat → Nat) (now : Int) (k : GoKey),
      (keyToHash mh k).isSome →
        Get mh now k (Flush c) = some (none, Flush c) := by
  constructor
  · simp only [ItemCount, Flush, List.map_map]
    exact List.sum_eq_zero (by simp)
  · intro mh now k hk
    obtain ⟨h, hk⟩ := Option.isSome_iff_exists.mp hk
    simp only [Get, hk, shard_Flush, mapGet]

/-- Claim C6: `numShards` is the fixed constant 256, and every keyed
operation addresses exactly the shard at index `hash % numShards`:
`Set` rewrites only that shard (and there performs the map overwrite),
`Get`'s result is determined by that shard alone, `Delete` erases in
exactly that shard and touches no other, and `Add` modifies no other
shard. -/
theorem ops_address_shard_hash_mod_numShards :
    numShards = 256 ∧
    (∀ (mh : List Nat → Nat) (now : Int) (k : GoKey) (h : Nat) (x : α)
        (d : Int) (c c' : cache α),
      keyToHash mh k = some h → Set mh now k x d c = some c' →
        (∀ j, j ≠ h % numShards → shard c' j = shard c j) ∧
        (h % numShards < c.items.length →
          ∃ e, shard c' (h % numShards) =
            mapSet (shard c (h % numShards)) h ⟨x, e⟩)) ∧
    (∀ (mh : List Nat → Nat) (now : Int) (k : GoKey) (h : Nat)
        (c₁ c₂ : cache α),
      keyToHash mh k = some h →
      shard c₁ (h % numShards) = shard c₂ (h % numShards) →
      (Get mh now k c₁).map Prod.fst = (Get mh now k c₂).map Prod.fst) ∧
    (∀ (mh : List Nat → Nat) (k : GoKey) (h : Nat) (c c' : cache α),
      keyToHash mh k = some h → Delete mh k c = some c' →
        (∀ j, j ≠ h % numShards → shard c' j = shard c j) ∧
        shard c' (h % numShards) = mapErase (shard c (h % numShards)) h) ∧
    (∀ (mh : List Nat → Nat) (now : Int) (k : GoKey) (h : Nat) (x : α)
        (d : Int) (b : Bool) (c c' : cache α),
      keyToHash mh k = some h → Add mh now k x d c = some (b, c') →
        ∀ j, j ≠ h % numShards → shard c' j = shard c j) := by
  refine ⟨rfl, ?_, ?_, ?_, ?_⟩
  · intro mh now k h x d c c' hk hset
    rw [Set, hk] at hset
    obtain rfl := Option.some.inj hset
    constructor
    · intro j hj
      exact shard_set_ne _ _ _ _ hj
    · intro hlt
      exact ⟨_, shard_set_self _ _ _ hlt⟩
  · intro mh now k h c₁ c₂ hk hsh
    simp only [Get, hk]
    rw [hsh]
    rcases hm : mapGet (shard c₂ (h % numShards)) h with _ | it
    · simp only [hm]
      rfl
    · simp only [hm]
      split_ifs <;> rfl
  · intro mh k h c c' hk hdel
    rw [Delete, hk] at hdel
    obtain rfl := Option.some.inj hdel
    constructor
    · intro j hj
      exact shard_set_ne _ _ _ _ hj
    · rcases lt_or_ge (h % numShards) c.items.length with hlt | hge
      · exact shard_set_self _ _ _ hlt
      · rw [shard_eq_nil_of_le _ _ (by simpa using hge),
          shard_eq_nil_of_le _ _ hge]
        rfl
  · intro mh now k h x d b c c' hk hadd j hj
    rcases hg : get mh now k c with _ | r
    · simp only [Add, hk, hg] at hadd
      exact Option.noConfusion hadd
    · by_cases hr : r.isSome
      · simp only [Add, hk, hg, hr, if_true, Option.some.injEq,
          Prod.mk.injEq] at hadd
        obtain ⟨-, rfl⟩ := hadd
        rfl
      · rcases hs : set mh now k x d c with _ | c''
        · simp only [Add, hk, hg, hs, if_neg hr] at hadd
          exact Option.noConfusion hadd
        · simp only [Add, hk, hg, hs, if_neg hr, Option.some.injEq,
            Prod.mk.injEq] at hadd
          obtain ⟨-, rfl⟩ := hadd
          rw [set, hk] at hs
          obtain rfl := Option.some.inj hs
          exact shard_set_ne _ _ _ _ hj

/-- Claim C8: `Add` returns the "already exists" error exactly when a
live (present and not yet expired) entry exists for the key's hash at
call time, and in that case returns the cache unchanged; otherwise (hash
absent, or its entry expired) it inserts the new entry into the key's
shard and reports no error. -/
theorem add_errors_iff_live_entry (mh : List Nat → Nat) (now : Int)
    (k : GoKey) (h : Nat) (x : α) (d : Int) (c : cache α)
    (hk : keyToHash mh k = some h) :
    ((∃ it : item α, mapGet (shard c (h % numShards)) h = some it ∧
        ¬(0 < it.Expiration ∧ it.Expiration < now)) →
      Add mh now k x d c = some (true, c)) ∧
    ((mapGet (shard c (h % numShards)) h = none ∨
      (∃ it : item α, mapGet (shard c (h % numShards)) h = some it ∧
        0 < it.Expiration ∧ it.Expiration < now)) →
      ∃ e : Int, Add mh now k x d c =
        some (false, { c with items := c.items.set (h % numShards) (mapSet (shard c (h % numShards)) h ⟨x, e⟩) })) := by
  constructor
  · rintro ⟨it, hit, hlive⟩
    have hget : get mh now k c = some (some it.Object) := by
      simp only [get, hk, hit]
      by_cases h1 : 0 < it.Expiration
      · rw [if_pos h1, if_neg (fun h2 => hlive ⟨h1, h2⟩)]
      · rw [if_neg h1]
    simp only [Add, hk, hget, Option.isSome_some, if_true]
  · intro hcase
    have hget : get mh now k c = some none := by
      rcases hcase with h1 | ⟨it, hit, h1, h2⟩
      · simp only [get, hk, h1]
      · simp only [get, hk, hit, if_pos h1, if_pos h2]
    have hset : set mh now k x d c = some { c with items := c.items.set (h % numShards) (mapSet (shard c (h % numShards)) h ⟨x, if 0 < (if d = DefaultExpiration then c.defaultExpiration else d) then now + (if d = DefaultExpiration then c.defaultExpiration else d) else 0⟩) } := by
      simp only [set, hk]
    refine ⟨if 0 < (if d = DefaultExpiration then c.defaultExpiration else d) then now + (if d = DefaultExpiration then c.defaultExpiration else d) else 0, ?_⟩
    simp only [Add, hk, hget, hset, Option.isSome_none, Bool.false_eq_true,
      if_false]

/-- Claim C9: the shard-placement invariant `WF` — 256 shards, and every
entry lives in the shard at index `hash % numShards` (hence no hash in
two distinct shards) — holds for a newly constructed cache and is
preserved by `Set`, `SetDefault`, `Add`, `Delete`, `DeleteExpired`, and
`Flush`, so it holds after any sequence of those operations. -/
theorem shard_placement_invariant :
    (∀ de : Int, WF (newCache de : cache α)) ∧
    (∀ c : cache α, WF c → ∀ (i j : Nat) (p q : Nat × item α),
      p ∈ shard c i → q ∈ shard c j → p.1 = q.1 → i = j) ∧
    (∀ (mh : List Nat → Nat) (now : Int) (k : GoKey) (x : α) (d : Int)
        (c c' : cache α),
      WF c → Set mh now k x d c = some c' → WF c') ∧
    (∀ (mh : List Nat → Nat) (now : Int) (k : GoKey) (x : α)
        (c c' : cache α),
      WF c → SetDefault mh now k x c = some c' → WF c') ∧
    (∀ (mh : List Nat → Nat) (now : Int) (k : GoKey) (x : α) (d : Int)
        (b : Bool) (c c' : cache α),
      WF c → Add mh now k x d c = some (b, c') → WF c') ∧
    (∀ (mh : List Nat → Nat) (k : GoKey) (c c' : cache α),
      WF c → Delete mh k c = some c' → WF c') ∧
    (∀ (now : Int) (c : cache α), WF c → WF (DeleteExpired now c)) ∧
    (∀ c : cache α, WF c → WF (Flush c)) := by
  refine ⟨WF_newCache, ?_, WF_Set, ?_, WF_Add, WF_Delete,
    WF_DeleteExpired, WF_Flush⟩
  · intro c hwf i j p q hp hq hpq
    obtain ⟨hlen, hins⟩ := hwf
    have hi : i < numShards := by
      by_contra hh
      rw [shard_eq_nil_of_le c i (by omega)] at hp
      exact absurd hp (List.not_mem_nil _)
    have hj : j < numShards := by
      by_contra hh
      rw [shard_eq_nil_of_le c j (by omega)] at hq
      exact absurd hq (List.not_mem_nil _)
    have h1 := hins i hi p hp
    have h2 := hins j hj q hq
    rw [hpq] at h1
    omega
  · intro mh now k x c c' hwf hset
    exact WF_Set mh now k x c.defaultExpiration c c' hwf hset

/-! ### Witnesses: the claim theorems applied at concrete inputs -/

/-- A small concrete cache for the witnesses: one shard whose map holds
hash 0 with value 7 and absolute expiration 5. -/
def sample : cache Nat :=
  { defaultExpiration := -1, items := [[(0, ⟨7, 5⟩)]] }

/-- Witness for C1: `Set` of key `uint64 3` with `NoExpiration` at time 0
followed by `Get` at time 5 returns `(42, true)`. -/
theorem set_then_get_returns_value_witness :
    ∃ c', Set (fun _ => 0) 0 (GoKey.ku64 3) (42 : Nat) (-1) (newCache 0) = some c' ∧
      Get (fun _ => 0) 5 (GoKey.ku64 3) c' = some (some 42, c') :=
  set_then_get_returns_value (fun _ => 0) 0 5 (GoKey.ku64 3) 3 42 (-1)
    (newCache 0) rfl (by simp [newCache]) (Or.inl rfl)

/-- Witness for C5: at time 9 the entry with expiration 5 is reported
not-found and the state, entry included, is untouched. -/
theorem get_expired_not_found_and_frame_witness :
    Get (fun _ => 0) 9 (GoKey.ku64 0) sample = some (none, sample) ∧
      ((0 : Nat), (⟨7, 5⟩ : item Nat)) ∈ shard sample (0 % numShards) :=
  get_expired_not_found_and_frame (fun _ => 0) 9 (GoKey.ku64 0) 0 ⟨7, 5⟩
    sample rfl (by decide) (by decide) (by decide)

/-- Witness for C10: at observed time exactly 5 = the entry's expiration,
`Get` still returns the value, the sweep keeps the entry, and `Expired`
is false. -/
theorem expiration_boundary_is_strict_witness :
    Get (fun _ => 0) 5 (GoKey.ku64 0) sample = some (some 7, sample) ∧
      ((0 : Nat), (⟨7, 5⟩ : item Nat)) ∈
        shard (DeleteExpired 5 sample) (0 % numShards) ∧
      (⟨7, 5⟩ : item Nat).Expired 5 = false :=
  (expiration_boundary_is_strict (fun _ => 0) (GoKey.ku64 0) 0 ⟨7, 5⟩ sample
    rfl (by decide) (by decide)).1 5 (by decide)

/-- Witness for C4: the hasher succeeds on a supported key, and `Set` of
an unsupported key fails fast. -/
theorem unsupported_key_fails_fast_witness :
    ((keyToHash (fun _ => 0) (GoKey.ku64 3)).isSome ↔
      GoKey.ku64 3 ≠ GoKey.kUnsupported) ∧
    Set (fun _ => 0) 0 GoKey.kUnsupported (5 : Nat) (-1) (newCache 0) = none :=
  ⟨(@unsupported_key_fails_fast Nat (fun _ => 0)).1 (GoKey.ku64 3),
   ((@unsupported_key_fails_fast Nat (fun _ => 0)).2 0 5 (-1) (newCache 0)).1⟩

/-- Witness for C3 (amended): identity on `uint64 7`, zero-extension on
the nonnegative value 5, sign-pattern reinterpretation on `-3`. -/
theorem keyToHash_integer_cases_witness :
    keyToHash (fun _ => 0) (GoKey.ku64 7) = some 7 ∧
    (((5 : Int) % (2 ^ 64 : Int)).toNat : Int) = 5 ∧
    ((((-3) : Int) % (2 ^ 64 : Int)).toNat : Int) = 2 ^ 64 + (-3) :=
  ⟨(keyToHash_integer_cases (fun _ => 0)).1 7,
   (keyToHash_integer_cases (fun _ => 0)).2.2.2.2.2.1 5 (by decide) (by decide),
   (keyToHash_integer_cases (fun _ => 0)).2.2.2.2.2.2.1 (-3) (by decide) (by decide)⟩

/-- Witness for C2: sweeping the sample cache at time 9 removes its one
expired entry and the counts balance. -/
theorem delete_expired_removes_exactly_expired_witness :
    (((0 : Nat), (⟨7, 5⟩ : item Nat)) ∈ shard (DeleteExpired 9 sample) 0 ↔
      (((0 : Nat), (⟨7, 5⟩ : item Nat)) ∈ shard sample 0 ∧
        ¬(0 < (⟨7, 5⟩ : item Nat).Expiration ∧
          (⟨7, 5⟩ : item Nat).Expiration < 9))) ∧
    ItemCount (DeleteExpired 9 sample) + expiredCount 9 sample =
      ItemCount sample :=
  ⟨(delete_expired_removes_exactly_expired 9 sample).1 0 0 ⟨7, 5⟩,
   (delete_expired_removes_exactly_expired 9 sample).2⟩

/-- Witness for C7: flushing the sample cache zeroes the count and makes
a previously set key miss. -/
theorem flush_empties_cache_witness :
    ItemCount (Flush sample) = 0 ∧
    Get (fun _ => 0) 0 (GoKey.ku64 0) (Flush sample) =
      some (none, Flush sample) :=
  ⟨(flush_empties_cache sample).1,
   (flush_empties_cache sample).2 (fun _ => 0) 0 (GoKey.ku64 0) (by decide)⟩

/-- Witness for C6: `Delete` of the key hashing to 3 leaves shard 1 of a
4-shard cache untouched. -/
theorem ops_address_shard_hash_mod_numShards_witness :
    ∃ c', Delete (fun _ => 0) (GoKey.ku64 3)
        (⟨-1, List.replicate 4 []⟩ : cache Nat) = some c' ∧
      shard c' 1 = shard (⟨-1, List.replicate 4 []⟩ : cache Nat) 1 :=
  ⟨_, rfl,
   ((@ops_address_shard_hash_mod_numShards Nat).2.2.2.1 (fun _ => 0)
      (GoKey.ku64 3) 3 _ _ rfl rfl).1 1 (by decide)⟩

/-- Witness for C8: `Add` on the sample cache at time 3 — its entry,
expiring at 5, is still live — reports the conflict and leaves the cache
unchanged. -/
theorem add_errors_iff_live_entry_witness :
    Add (fun _ => 0) 3 (GoKey.ku64 0) (9 : Nat) (-1) sample =
      some (true, sample) :=
  (add_errors_iff_live_entry (fun _ => 0) 3 (GoKey.ku64 0) 0 9 (-1) sample
    rfl).1 ⟨⟨7, 5⟩, by decide, by decide⟩

/-- Witness for C9: a fresh cache is well-formed and stays so after a
`Set`. -/
theorem shard_placement_invariant_witness :
    ∃ c', Set (fun _ => 0) 0 (GoKey.ku64 3) (5 : Nat) (-1)
        (newCache 0 : cache Nat) = some c' ∧ WF c' :=
  ⟨_, rfl,
   (@shard_placement_invariant Nat).2.2.1 (fun _ => 0) 0 (GoKey.ku64 3) 5
     (-1) (newCache 0) _ (WF_newCache 0) rfl⟩

end GoCache
